import Mathlib

/-! Formal model of the confetti animation code (scripts/main.js):
    the random utilities, the canvas burst particles (class Confetti and
    ConfettiManager.addConfetti), the 1D Poisson-disc spline sampler
    (createPoisson), the ambient DOM particle system (Confetto, addConfetto
    and the poof frame loop) and the cosine interpolation.  Machine floats
    are modelled as exact rationals; the transcendental values stored by the
    constructors (cosines and sines of random angles) appear as plain field
    values, and the cosine interpolation itself is modelled over the reals.
    Every Math.random() draw is passed in explicitly as an argument. -/

/-- Utils.getRandomInRange (source lines 10-14): multiplier = 10^precision,
    randomValue = rnd*(max-min)+min, result floor(randomValue*multiplier)
    divided by multiplier.  The Math.random() draw is the argument rnd. -/
def getRandomInRange (min max : ℚ) (precision : ℕ) (rnd : ℚ) : ℚ :=
  let multiplier : ℚ := 10 ^ precision
  let randomValue := rnd * (max - min) + min
  (⌊randomValue * multiplier⌋ : ℚ) / multiplier

/-- Which edge a canvas particle was emitted from (source string values
    left and right). -/
inductive ConfettiDirection
  | left
  | right
deriving DecidableEq, Repr

/-- The shrink/grow phase of the elliptical y-radius oscillation (source
    string values down and up). -/
inductive FlutterPhase
  | down
  | up
deriving DecidableEq, Repr

/-- A two-component vector, as the source's {x, y} literals. -/
structure Vec2 where
  x : ℚ
  y : ℚ
deriving DecidableEq, Repr

/-- State of one canvas burst particle (class Confetti, source lines 54-94).
    The constructor's random draws and the trig-derived absCos/absSin are
    carried as already-computed field values.  emoji is true when an emoji
    string was assigned; svgIcon is true once the icon image has loaded
    (updatePosition tests the truthiness of both). -/
structure Confetti where
  speed : Vec2
  finalSpeedX : ℚ
  rotationSpeed : ℚ
  dragCoefficient : ℚ
  radius : Vec2
  initialRadius : ℚ
  radiusYDirection : FlutterPhase
  absCos : ℚ
  absSin : ℚ
  position : Vec2
  initialPosition : Vec2
  emoji : Bool
  svgIcon : Bool
  createdAt : ℚ
  direction : ConfettiDirection
deriving DecidableEq, Repr

/-- The flutter half of Confetti.updatePosition (source lines 133-150):
    rotationSpeed decays by 1e-5 * deltaTime clamped at zero, then radius.y
    shrinks while the phase is down (clamping at 0, flipping to up) or grows
    while the phase is up (clamping at initialRadius, flipping to down).
    Returns the new rotationSpeed, radius.y and phase. -/
def updateFlutter (deltaTime rotationSpeed radiusY initialRadius : ℚ)
    (phase : FlutterPhase) : ℚ × ℚ × FlutterPhase :=
  let rs := max (rotationSpeed - 1/100000 * deltaTime) 0
  match phase with
  | .down =>
    let ry := radiusY - deltaTime * rs
    if ry ≤ 0 then (rs, 0, .up) else (rs, ry, .down)
  | .up =>
    let ry := radiusY + deltaTime * rs
    if initialRadius ≤ ry then (rs, initialRadius, .down) else (rs, ry, .up)

/-- Confetti.updatePosition (source lines 123-151).  elapsed is
    currentTime - createdAt; speed.x loses dragCoefficient*deltaTime while
    above finalSpeedX (no clamp); position.x accumulates; position.y is
    recomputed from initialPosition.y, speed.y and elapsed with the gravity
    term 0.00125 * elapsed^2 / 2; the flutter runs only when neither an
    emoji nor a loaded icon is present. -/
def updatePosition (p : Confetti) (deltaTime currentTime : ℚ) : Confetti :=
  let elapsed := currentTime - p.createdAt
  let speedX :=
    if p.finalSpeedX < p.speed.x then p.speed.x - p.dragCoefficient * deltaTime
    else p.speed.x
  let posX := p.position.x +
    speedX * (match p.direction with | .left => -p.absCos | .right => p.absCos) * deltaTime
  let posY := p.initialPosition.y - p.speed.y * p.absSin * elapsed
    + 1/800 * elapsed ^ 2 / 2
  if p.emoji = false ∧ p.svgIcon = false then
    let f := updateFlutter deltaTime p.rotationSpeed p.radius.y p.initialRadius
      p.radiusYDirection
    { p with speed := ⟨speedX, p.speed.y⟩, position := ⟨posX, posY⟩,
             rotationSpeed := f.1, radius := ⟨p.radius.x, f.2.1⟩,
             radiusYDirection := f.2.2 }
  else
    { p with speed := ⟨speedX, p.speed.y⟩, position := ⟨posX, posY⟩ }

/-- A sequence of updatePosition calls, each step a (deltaTime, currentTime)
    pair, as performed by the ConfettiManager loop. -/
def updateRun (p : Confetti) (steps : List (ℚ × ℚ)) : Confetti :=
  steps.foldl (fun q s => updatePosition q s.1 s.2) p

/-- A concrete sample particle used to instantiate theorems on explicit
    inputs (field values inside the ranges the constructor draws from,
    except where a theorem explicitly stresses them). -/
def baseConfetti : Confetti :=
  { speed := ⟨1, 1⟩, finalSpeedX := 1/2, rotationSpeed := 1/20,
    dragCoefficient := 1/2000, radius := ⟨5, 5⟩, initialRadius := 5,
    radiusYDirection := .down, absCos := 1/2, absSin := 1/2,
    position := ⟨0, 500⟩, initialPosition := ⟨0, 500⟩,
    emoji := false, svgIcon := false, createdAt := 0,
    direction := .right }

/-- The per-particle construction inputs pushed by ConfettiManager.addConfetti
    (source lines 176-201): initial position, direction and radius.  The
    random offset drawn inside the Confetti constructor (the claim's
    "before the random offset adjustment") is applied after these. -/
structure ConfettiSpawn where
  x : ℚ
  y : ℚ
  direction : ConfettiDirection
  radius : ℚ
deriving DecidableEq, Repr

/-- defaultConfettiConfig.confettiesNumber (source line 37). -/
def confettiesNumber : ℕ := 295

/-- The spawn loop of addConfetti: for (i = 0; i < confettiesNumber/2; i++)
    push one particle from x = 0 with direction right and one from x = W with
    direction left, both at y = 5*H/7 (baseY).  The division count/2 is real
    division while i is the integer loop counter.  The fuel argument only
    bounds the recursion; addConfetti passes enough fuel for the loop to
    exit through its own condition. -/
def addConfettiLoop (count : ℕ) (W H radius : ℚ) : ℕ → ℕ → List ConfettiSpawn
  | 0, _ => []
  | fuel + 1, i =>
    if (i : ℚ) < (count : ℚ) / 2 then
      ⟨0, 5 * H / 7, .right, radius⟩ :: ⟨W, 5 * H / 7, .left, radius⟩ ::
        addConfettiLoop count W H radius fuel (i + 1)
    else []

/-- ConfettiManager.addConfetti with count requested particles, viewport
    width W and height H. -/
def addConfetti (count : ℕ) (W H radius : ℚ) : List ConfettiSpawn :=
  addConfettiLoop count W H radius (count + 1) 0

/-- The list of spawn inputs that n iterations of the addConfetti loop
    produce: n right/left pairs. -/
def spawnPairs (W H radius : ℚ) : ℕ → List ConfettiSpawn
  | 0 => []
  | n + 1 => ⟨0, 5 * H / 7, .right, radius⟩ :: ⟨W, 5 * H / 7, .left, radius⟩ ::
      spawnPairs W H radius n

/-- Cosine interpolation of the background system (source lines 297-299). -/
noncomputable def interpolation (a b t : ℝ) : ℝ :=
  (1 - Real.cos (Real.pi * t)) / 2 * (b - a) + a



/-- Poisson-disc radius of the background system: 1/eccentricity with
    eccentricity = 10 (source lines 251 and 302). -/
def radius : ℚ := 1/10

/-- radius2 = radius + radius (source line 302). -/
def radius2 : ℚ := radius + radius

/-- The dart-placement walk of createPoisson (source lines 311-318): scan
    the domain interval pairs (a, b) accumulating their measure until the
    raw dart falls inside the current pair, then map it to the absolute
    position dart + a - accumulated.  none when the walk falls through
    (never happens for draws in [0, 1): the stored measure matches the
    domain and the loop would otherwise spin forever on the same state). -/
def pickDart (dart : ℚ) : List (ℚ × ℚ) → ℚ → Option ℚ
  | [], _ => none
  | (a, b) :: rest, acc =>
    if dart < acc + (b - a) then some (dart + a - acc)
    else pickDart dart rest (acc + (b - a))

/-- The per-interval domain update of createPoisson (source lines 322-335)
    against the exclusion window (c, d) = (dart - radius, dart + radius):
    an interval is trimmed on its left side (move interior, left case),
    deleted, trimmed on its right side, split in two, or left unchanged. -/
def updateInterval (c d : ℚ) (ab : ℚ × ℚ) : List (ℚ × ℚ) :=
  if c ≤ ab.1 ∧ ab.1 < d then
    if d < ab.2 then [(d, ab.2)] else []
  else if ab.1 < c ∧ c < ab.2 then
    if ab.2 ≤ d then [(ab.1, c)] else [(ab.1, c), (d, ab.2)]
  else [ab]

/-- The full domain update: the source's reverse-order in-place splices
    equal this per-interval replacement over the interval list. -/
def updateDomain (c d : ℚ) (domain : List (ℚ × ℚ)) : List (ℚ × ℚ) :=
  domain.flatMap (updateInterval c d)

/-- Re-measuring the domain (source lines 338-339). -/
def measureOf (domain : List (ℚ × ℚ)) : ℚ :=
  (domain.map fun ab => ab.2 - ab.1).sum

/-- The loop state of createPoisson: the available domain (flattened pairs
    in the source array), its measure, and the spline samples so far. -/
structure PoissonState where
  domain : List (ℚ × ℚ)
  measure : ℚ
  spline : List ℚ
deriving Repr

/-- One iteration of the createPoisson while loop (source lines 307-340):
    draw dart = measure * random(), place it in the domain, append it to
    the spline, exclude (dart - radius, dart + radius) from the domain and
    re-measure. -/
def poissonStep (rnd : ℚ) (st : PoissonState) : Option PoissonState :=
  match pickDart (st.measure * rnd) st.domain 0 with
  | none => none
  | some dart =>
    let c := dart - radius
    let d := dart + radius
    let domain2 := updateDomain c d st.domain
    some ⟨domain2, measureOf domain2, st.spline ++ [dart]⟩

/-- The createPoisson while loop: while measure is nonzero run poissonStep
    on the next draw; once it reaches zero return the sorted spline (the
    source's .sort() is lexicographic on decimal strings, which orders
    these values, all of the form 0, 0.d..., 1, numerically).  fuel bounds
    the iteration count and rnds is the stream of Math.random() draws;
    none when either runs out before the loop finishes. -/
def createPoissonLoop (fuel : ℕ) (rnds : List ℚ) (st : PoissonState) :
    Option (List ℚ) :=
  if st.measure = 0 then some (List.insertionSort (· ≤ ·) st.spline)
  else
    match fuel, rnds with
    | 0, _ => none
    | _ + 1, [] => none
    | fuel2 + 1, rnd :: rest =>
      match poissonStep rnd st with
      | none => none
      | some st2 => createPoissonLoop fuel2 rest st2
termination_by fuel

/-- createPoisson (source lines 303-343): the domain starts as the single
    interval [radius, 1 - radius], the measure as 1 - radius2, and the
    spline as [0, 1]. -/
def createPoisson (fuel : ℕ) (rnds : List ℚ) : Option (List ℚ) :=
  createPoissonLoop fuel rnds ⟨[(radius, 1 - radius)], 1 - radius2, [0, 1]⟩

/-- The loop invariant of createPoisson: every domain interval is
    nondegenerate and lies within [radius, 1 - radius]; the stored measure
    is the measure of the domain; the spline contains 0 and 1, lies in
    [0, 1], has no duplicates, keeps distinct entries at least radius
    apart, and every domain point stays at least radius away from every
    spline entry other than the endpoints 0 and 1. -/
def PoissonInv (st : PoissonState) : Prop :=
  (∀ ab ∈ st.domain, radius ≤ ab.1 ∧ ab.1 < ab.2 ∧ ab.2 ≤ 1 - radius) ∧
  st.measure = measureOf st.domain ∧
  0 ∈ st.spline ∧ 1 ∈ st.spline ∧
  (∀ s ∈ st.spline, 0 ≤ s ∧ s ≤ 1) ∧
  st.spline.Nodup ∧
  (∀ s ∈ st.spline, ∀ t ∈ st.spline, s ≠ t → radius ≤ |s - t|) ∧
  (∀ ab ∈ st.domain, ∀ s ∈ st.spline,
    s = 0 ∨ s = 1 ∨ s + radius ≤ ab.1 ∨ ab.2 ≤ s - radius)

/-- Constant deviation of the background system (source line 252). -/
def deviation : ℚ := 100

/-- Numeric state of one ambient DOM particle (function Confetto, source
    lines 356-391).  The style-only values (size, color, the axis string)
    never feed back into the update computation and are omitted; dx and dy
    hold the constructor draws sin(dxThetaMin + dxThetaMax*random()) and
    dyMin + dyMax*random() as stored values. -/
structure Confetto where
  frame : ℚ
  x : ℚ
  y : ℚ
  theta : ℚ
  dx : ℚ
  dy : ℚ
  dTheta : ℚ
  splineX : List ℚ
  splineY : List ℚ
deriving DecidableEq, Repr

/-- Confetto.update (source lines 393-413): frame, x, y, theta advance by
    their rates times delta, and the returned Bool is the removal test
    this.y > height + deviation on the updated y.  The spline wobble
    (confettoPhi, bracketIdx and the cosine interpolation of splineY
    values) feeds only the rendered left/top style offsets, never this
    numeric state. -/
def confettoUpdate (height delta : ℚ) (c : Confetto) : Confetto × Bool :=
  let frame' := c.frame + delta
  let x' := c.x + c.dx * delta
  let y' := c.y + c.dy * delta
  let theta' := c.theta + c.dTheta * delta
  ({ c with frame := frame', x := x', y := y', theta := theta' },
   decide (height + deviation < y'))

/-- The state part of one Confetto.update call. -/
def confettoStep (height delta : ℚ) (c : Confetto) : Confetto :=
  (confettoUpdate height delta c).1

/-- The done flag reported by the k-th consecutive update of c (k starts
    at 1): this.y > height + deviation after k updates. -/
def confettoDoneFlag (height delta : ℚ) (c : Confetto) (k : ℕ) : Prop :=
  height + deviation < ((confettoStep height delta)^[k] c).y

/-- Truncation toward zero: the implicit integer quotient of the JS
    remainder operator. -/
def jsTrunc (x : ℚ) : ℤ := if x < 0 then ⌈x⌉ else ⌊x⌋

/-- The JS remainder a % b (the result carries the sign of a). -/
def jsMod (a b : ℚ) : ℚ := a - b * jsTrunc (a / b)

/-- phi = this.frame % 7777 / 7777, computed by Confetto.update on the
    already-incremented frame. -/
def confettoPhi (frame : ℚ) : ℚ := jsMod frame 7777 / 7777

/-- The bracket search of Confetto.update (source lines 400-401): i = 0,
    j = 1, then while (phi >= splineX[j]) i = j++.  The loop reads
    successive entries splineX[j], i.e. it walks the suffix of splineX
    from index j; in JS reading past the end yields undefined, the
    comparison is then false and the loop stops, which the empty-suffix
    case mirrors.  Returns the final j; i is always j - 1. -/
def bracketGo (phi : ℚ) : List ℚ → ℕ → ℕ
  | [], j => j
  | v :: rest, j => if v ≤ phi then bracketGo phi rest (j + 1) else j

/-- The bracket search as Confetto.update starts it, with j = 1 (so the
    walked suffix is splineX without its first entry). -/
def bracketIdx (xs : List ℚ) (phi : ℚ) : ℕ := bracketGo phi (xs.drop 1) 1

/-- splineY construction in the Confetto constructor (source lines
    388-391): with l = splineX.length - 1, indices 1 .. l-1 each get one
    deviation*random() draw, then splineY[0] and splineY[l] share one
    further deviation*random() draw.  rnd is the stream of draws. -/
def mkSplineY (splineX : List ℚ) (rnd : ℕ → ℚ) : List ℚ :=
  let l := splineX.length - 1
  let shared := deviation * rnd (l - 1)
  shared :: (((List.range (l - 1)).map fun i => deviation * rnd i) ++ [shared])

/-- State of the DOM particle system (poof, source lines 416-455): whether
    the spawn timer handle is set (setTimeout handles are truthy and the
    code never clears one), the live particle sequence, and whether the
    container is attached to the document body. -/
structure DomSystemState where
  timer : Bool
  confetti : List Confetto
  attached : Bool
deriving DecidableEq, Repr

/-- One frame's particle pass (source lines 438-443): each particle is
    updated, and those whose update returns true are removed from the
    sequence (and their DOM nodes detached).  The source's reverse-order
    in-place splice equals this order-preserving update-then-remove pass. -/
def domFrameParticles (height delta : ℚ) (cs : List Confetto) : List Confetto :=
  cs.filterMap fun c =>
    let cb := confettoUpdate height delta c
    if cb.2 then none else some cb.1

/-- One loop callback (source lines 433-451): when the container is
    attached, run the particle pass, then reschedule (stay attached) when
    the timer handle is set or particles remain, else remove the container
    and clear the frame handle. -/
def domLoopStep (height delta : ℚ) (s : DomSystemState) : DomSystemState :=
  if s.attached then
    let cs' := domFrameParticles height delta s.confetti
    if s.timer || !cs'.isEmpty then { s with confetti := cs' }
    else { timer := s.timer, confetti := cs', attached := false }
  else s

/-- addConfetto (source lines 424-429): push a new particle, append its
    node to the container, and unconditionally schedule the next spawn,
    overwriting the timer handle with a fresh truthy one. -/
def addConfetto (c : Confetto) (s : DomSystemState) : DomSystemState :=
  { s with confetti := s.confetti ++ [c], timer := true }

/-- poof start-up (source lines 416-432): append the container and run
    addConfetto once synchronously before the loop starts. -/
def domStart (c0 : Confetto) : DomSystemState :=
  addConfetto c0 { timer := false, confetti := [], attached := true }

/-- An event interleaving of the unmocked system: either the pending spawn
    timeout fires (running addConfetto with a freshly built particle), or
    an animation frame runs the loop callback. -/
inductive DomEvent where
  | spawn (c : Confetto)
  | frame (height delta : ℚ)

/-- Step of the unmocked system on one event. -/
def domSysStep (s : DomSystemState) : DomEvent → DomSystemState
  | .spawn c => if s.timer then addConfetto c s else s
  | .frame height delta => domLoopStep height delta s

/-- Three concrete ambient particles, each already past the removal line
    after one update with height 0 and delta 1; used to instantiate the
    termination theorem. -/
def sampleConfetti3 : List Confetto :=
  [ ⟨0, 0, 101, 0, 0, 1, 0, [0, 1], [50, 50]⟩,
    ⟨0, 5, 150, 0, 0, 2, 0, [0, 1], [50, 50]⟩,
    ⟨0, 9, 200, 0, 1, 3, 1, [0, 1], [50, 50]⟩ ]

/-- A mocked DOM system state: spawn scheduler stopped, three live
    particles, container attached. -/
def sampleDomState : DomSystemState := ⟨false, sampleConfetti3, true⟩

/-- A concrete ambient particle whose splineX is a createPoisson output
    and whose splineY is built from a constant random stream. -/
def sampleConfetto : Confetto :=
  { frame := 0, x := 0, y := -100, theta := 0, dx := 0, dy := 1/10, dTheta := 1/2,
    splineX := [0, 1/10, 3/10, 1/2, 7/10, 4/5, 1],
    splineY := mkSplineY [0, 1/10, 3/10, 1/2, 7/10, 4/5, 1] fun _ => 1/2 }

-- ## Theorems

lemma updatePosition_speed_x (p : Confetti) (dt t : ℚ) :
    (updatePosition p dt t).speed.x =
      if p.finalSpeedX < p.speed.x then p.speed.x - p.dragCoefficient * dt
      else p.speed.x := by
  unfold updatePosition
  split_ifs <;> rfl

lemma updatePosition_finalSpeedX (p : Confetti) (dt t : ℚ) :
    (updatePosition p dt t).finalSpeedX = p.finalSpeedX := by
  unfold updatePosition
  split_ifs <;> rfl

lemma updatePosition_dragCoefficient (p : Confetti) (dt t : ℚ) :
    (updatePosition p dt t).dragCoefficient = p.dragCoefficient := by
  unfold updatePosition
  split_ifs <;> rfl

lemma updatePosition_initialRadius (p : Confetti) (dt t : ℚ) :
    (updatePosition p dt t).initialRadius = p.initialRadius := by
  unfold updatePosition
  split_ifs <;> rfl

lemma updatePosition_emoji (p : Confetti) (dt t : ℚ) :
    (updatePosition p dt t).emoji = p.emoji := by
  unfold updatePosition
  split_ifs <;> rfl

lemma updatePosition_svgIcon (p : Confetti) (dt t : ℚ) :
    (updatePosition p dt t).svgIcon = p.svgIcon := by
  unfold updatePosition
  split_ifs <;> rfl

/-- Claim C4: in every updatePosition(deltaTime, now) call the vertical
    position is recomputed, not accumulated, as
    initialPosition.y - speed.y*absSin*elapsed + 0.000625*elapsed^2 with
    elapsed = now - createdAt (0.000625 = 1/1600 = 0.00125/2). -/
theorem claim4_vertical_position (p : Confetti) (deltaTime now : ℚ) :
    (updatePosition p deltaTime now).position.y =
      p.initialPosition.y - p.speed.y * p.absSin * (now - p.createdAt)
        + 1/1600 * (now - p.createdAt) ^ 2 := by
  unfold updatePosition
  split_ifs <;> dsimp <;> ring

/-- Claim C2 fails on the code: the drag step has no clamp, so one large
    deltaTime (here 10000 ms, with the in-range draws of baseConfetti:
    speed.x 1, finalSpeedX 1/2, dragCoefficient 1/2000) drives speed.x to
    -4, far below finalSpeedX. -/
theorem claim2_counterexample :
    (0 : ℚ) ≤ 10000 ∧
    (updatePosition baseConfetti 10000 10000).speed.x < baseConfetti.finalSpeedX := by
  constructor
  · norm_num
  · norm_num [updatePosition, updateFlutter, baseConfetti]

/-- Claim C2 as amended: speed.x can undershoot the floor, by at most one
    drag decrement.  For any run whose deltaTimes all lie in [0, dmax] and a
    nonnegative dragCoefficient, speed.x never drops below
    min (initial speed.x) (finalSpeedX - dragCoefficient * dmax). -/
theorem claim2_drag_floor (p : Confetti) (steps : List (ℚ × ℚ)) (dmax : ℚ)
    (hdrag : 0 ≤ p.dragCoefficient)
    (hsteps : ∀ s ∈ steps, 0 ≤ s.1 ∧ s.1 ≤ dmax) :
    min p.speed.x (p.finalSpeedX - p.dragCoefficient * dmax)
      ≤ (updateRun p steps).speed.x := by
  induction steps generalizing p with
  | nil => exact min_le_left _ _
  | cons s ss ih =>
    have hstep := hsteps s (List.mem_cons_self s ss)
    have hrun : updateRun p (s :: ss) = updateRun (updatePosition p s.1 s.2) ss := rfl
    rw [hrun]
    have hfin := updatePosition_finalSpeedX p s.1 s.2
    have hdragq := updatePosition_dragCoefficient p s.1 s.2
    have hd2 : 0 ≤ (updatePosition p s.1 s.2).dragCoefficient := by rw [hdragq]; exact hdrag
    have ih2 := ih (updatePosition p s.1 s.2) hd2
      (fun u hu => hsteps u (List.mem_cons_of_mem s hu))
    rw [hfin, hdragq] at ih2
    refine le_trans ?_ ih2
    have hsp := updatePosition_speed_x p s.1 s.2
    have hmul : p.dragCoefficient * s.1 ≤ p.dragCoefficient * dmax :=
      mul_le_mul_of_nonneg_left hstep.2 hdrag
    rcases le_total p.speed.x p.finalSpeedX with hc | hc
    · have : (updatePosition p s.1 s.2).speed.x = p.speed.x := by
        rw [hsp, if_neg (not_lt.mpr hc)]
      rw [this]
    · by_cases hlt : p.finalSpeedX < p.speed.x
      · have : (updatePosition p s.1 s.2).speed.x = p.speed.x - p.dragCoefficient * s.1 := by
          rw [hsp, if_pos hlt]
        rw [this]
        have : p.finalSpeedX - p.dragCoefficient * dmax
            ≤ p.speed.x - p.dragCoefficient * s.1 := by linarith
        exact le_min (le_trans (min_le_right _ _) this) (min_le_right _ _)
      · have : (updatePosition p s.1 s.2).speed.x = p.speed.x := by
          rw [hsp, if_neg hlt]
        rw [this]

/-- Witness for claim2_drag_floor at a concrete run of two 10 ms steps. -/
theorem claim2_witness :
    (0 : ℚ) ≤ baseConfetti.dragCoefficient ∧
    (∀ s ∈ ([(10, 10), (10, 20)] : List (ℚ × ℚ)), 0 ≤ s.1 ∧ s.1 ≤ 10) ∧
    min baseConfetti.speed.x
        (baseConfetti.finalSpeedX - baseConfetti.dragCoefficient * 10)
      ≤ (updateRun baseConfetti [(10, 10), (10, 20)]).speed.x :=
  ⟨by norm_num [baseConfetti], by norm_num,
    claim2_drag_floor baseConfetti [(10, 10), (10, 20)] 10 (by norm_num [baseConfetti])
      (by norm_num)⟩

/-- Claim C5 fails on the code: with min = 0.15, max = 0.2, precision = 1
    and the draw rnd = 0, the uniform value is 0.15 but the multiply-floor-
    divide truncation returns 0.1, which is below min, so the result is not
    in [min, max). -/
theorem claim5_counterexample :
    (0 : ℚ) ≤ 0 ∧ (0 : ℚ) < 1 ∧
    getRandomInRange (3/20) (1/5) 1 0 = 1/10 ∧ (1/10 : ℚ) < 3/20 := by
  refine ⟨le_refl 0, by norm_num, ?_, by norm_num⟩
  norm_num [getRandomInRange]

/-- Claim C5 as amended: for min < max and a draw rnd in [0, 1), the result
    is the uniform value rnd*(max-min)+min truncated toward negative
    infinity to precision digits: it never exceeds the value (no rounding
    up), sits within 10^-precision below it, and lies in the interval
    (min - 10^-precision, max) - it can undershoot min, but by strictly
    less than one truncation unit. -/
theorem claim5_truncation (min max : ℚ) (precision : ℕ) (rnd : ℚ)
    (h0 : 0 ≤ rnd) (h1 : rnd < 1) (hlt : min < max) :
    getRandomInRange min max precision rnd ≤ rnd * (max - min) + min ∧
    rnd * (max - min) + min - ((10 : ℚ) ^ precision)⁻¹
      < getRandomInRange min max precision rnd ∧
    min - ((10 : ℚ) ^ precision)⁻¹ < getRandomInRange min max precision rnd ∧
    getRandomInRange min max precision rnd < max := by
  have hm : (0 : ℚ) < (10 : ℚ) ^ precision := by positivity
  set v := rnd * (max - min) + min with hv
  have hres : getRandomInRange min max precision rnd
      = (⌊v * (10 : ℚ) ^ precision⌋ : ℚ) / (10 : ℚ) ^ precision := rfl
  have hfl : (⌊v * (10 : ℚ) ^ precision⌋ : ℚ) ≤ v * (10 : ℚ) ^ precision :=
    Int.floor_le _
  have hfg : v * (10 : ℚ) ^ precision - 1 < (⌊v * (10 : ℚ) ^ precision⌋ : ℚ) :=
    Int.sub_one_lt_floor _
  have hle : getRandomInRange min max precision rnd ≤ v := by
    rw [hres]
    rw [div_le_iff₀ hm]
    exact hfl
  have hgt : v - ((10 : ℚ) ^ precision)⁻¹ < getRandomInRange min max precision rnd := by
    rw [hres]
    rw [lt_div_iff₀ hm]
    have : (v - ((10 : ℚ) ^ precision)⁻¹) * (10 : ℚ) ^ precision
        = v * (10 : ℚ) ^ precision - 1 := by
      field_simp
    rw [this]
    exact hfg
  have hvmin : min ≤ v := by
    have : 0 ≤ rnd * (max - min) := mul_nonneg h0 (by linarith)
    rw [hv]; linarith
  have hvmax : v < max := by
    have h2 : rnd * (max - min) < 1 * (max - min) :=
      mul_lt_mul_of_pos_right h1 (by linarith)
    rw [hv]; nlinarith
  exact ⟨hle, hgt, by linarith, by linarith⟩

/-- Witness for claim5_truncation at min = 0, max = 1, precision = 0,
    draw 1/2 (result is the floor of 1/2, namely 0). -/
theorem claim5_witness :
    (0 : ℚ) ≤ 1/2 ∧ (1/2 : ℚ) < 1 ∧ (0 : ℚ) < 1 ∧
    (getRandomInRange 0 1 0 (1/2) ≤ 1/2 * (1 - 0) + 0 ∧
     1/2 * (1 - 0) + 0 - ((10 : ℚ) ^ (0 : ℕ))⁻¹ < getRandomInRange 0 1 0 (1/2) ∧
     (0 : ℚ) - ((10 : ℚ) ^ (0 : ℕ))⁻¹ < getRandomInRange 0 1 0 (1/2) ∧
     getRandomInRange 0 1 0 (1/2) < 1) :=
  ⟨by norm_num, by norm_num, by norm_num,
    claim5_truncation 0 1 0 (1/2) (by norm_num) (by norm_num) (by norm_num)⟩

lemma updatePosition_radius_y_bound (p : Confetti) (dt t : ℚ)
    (he : p.emoji = false) (hi : p.svgIcon = false)
    (h0 : 0 ≤ p.initialRadius) (hy0 : 0 ≤ p.radius.y)
    (hy1 : p.radius.y ≤ p.initialRadius) (hdt : 0 ≤ dt) :
    0 ≤ (updatePosition p dt t).radius.y ∧
    (updatePosition p dt t).radius.y ≤ p.initialRadius := by
  have hrs : 0 ≤ max (p.rotationSpeed - 1/100000 * dt) 0 := le_max_right _ _
  have hprod : 0 ≤ dt * max (p.rotationSpeed - 1/100000 * dt) 0 := mul_nonneg hdt hrs
  unfold updatePosition
  rw [if_pos ⟨he, hi⟩]
  unfold updateFlutter
  cases hph : p.radiusYDirection <;> dsimp <;> split <;> dsimp <;>
    constructor <;> linarith

/-- Claim C6: for a particle with neither emoji nor icon, nonnegative
    initialRadius and radius.y starting at initialRadius, radius.y stays in
    [0, initialRadius] across any sequence of updatePosition calls with
    nonnegative deltaTimes. -/
theorem claim6_radius_bound (p : Confetti) (steps : List (ℚ × ℚ))
    (he : p.emoji = false) (hi : p.svgIcon = false)
    (h0 : 0 ≤ p.initialRadius) (hinit : p.radius.y = p.initialRadius)
    (hsteps : ∀ s ∈ steps, 0 ≤ s.1) :
    0 ≤ (updateRun p steps).radius.y ∧
    (updateRun p steps).radius.y ≤ p.initialRadius := by
  have main : ∀ (l : List (ℚ × ℚ)) (q : Confetti), q.emoji = false →
      q.svgIcon = false → 0 ≤ q.initialRadius → 0 ≤ q.radius.y →
      q.radius.y ≤ q.initialRadius → (∀ s ∈ l, 0 ≤ s.1) →
      0 ≤ (updateRun q l).radius.y ∧
      (updateRun q l).radius.y ≤ q.initialRadius := by
    intro l
    induction l with
    | nil => intro q _ _ _ hy0 hy1 _; exact ⟨hy0, hy1⟩
    | cons s ss ih =>
      intro q hqe hqi hq0 hy0 hy1 hl
      have hstep := updatePosition_radius_y_bound q s.1 s.2 hqe hqi hq0 hy0 hy1
        (hl s (List.mem_cons_self s ss))
      have hrun : updateRun q (s :: ss) = updateRun (updatePosition q s.1 s.2) ss := rfl
      rw [hrun]
      have hir := updatePosition_initialRadius q s.1 s.2
      have := ih (updatePosition q s.1 s.2)
        (by rw [updatePosition_emoji]; exact hqe)
        (by rw [updatePosition_svgIcon]; exact hqi)
        (by rw [hir]; exact hq0)
        hstep.1 (by rw [hir]; exact hstep.2)
        (fun u hu => hl u (List.mem_cons_of_mem s hu))
      rw [hir] at this
      exact this
  exact main steps p he hi h0 (by rw [hinit]; exact h0) (le_of_eq hinit) hsteps

/-- Witness for claim6_radius_bound on baseConfetti with one 100 ms step. -/
theorem claim6_witness :
    baseConfetti.emoji = false ∧ baseConfetti.svgIcon = false ∧
    (0 : ℚ) ≤ baseConfetti.initialRadius ∧
    baseConfetti.radius.y = baseConfetti.initialRadius ∧
    (∀ s ∈ ([(100, 100)] : List (ℚ × ℚ)), 0 ≤ s.1) ∧
    (0 ≤ (updateRun baseConfetti [(100, 100)]).radius.y ∧
     (updateRun baseConfetti [(100, 100)]).radius.y ≤ baseConfetti.initialRadius) :=
  ⟨rfl, rfl, by norm_num [baseConfetti], by norm_num [baseConfetti], by norm_num,
    claim6_radius_bound baseConfetti [(100, 100)] rfl rfl (by norm_num [baseConfetti])
      (by norm_num [baseConfetti]) (by norm_num)⟩

lemma addConfettiLoop_cond_iff (count i : ℕ) :
    ((i : ℚ) < (count : ℚ) / 2) ↔ i < (count + 1) / 2 := by
  rw [lt_div_iff₀ (by norm_num : (0:ℚ) < 2)]
  have h2 : ((i : ℚ) * 2 < (count : ℚ)) ↔ i * 2 < count := by exact_mod_cast Iff.rfl
  rw [h2]
  omega

lemma addConfettiLoop_eq (count : ℕ) (W H radius : ℚ) :
    ∀ (fuel i : ℕ), (count + 1) / 2 ≤ i + fuel →
      addConfettiLoop count W H radius fuel i
        = spawnPairs W H radius ((count + 1) / 2 - i) := by
  intro fuel
  induction fuel with
  | zero =>
    intro i hi
    have hz : (count + 1) / 2 - i = 0 := by omega
    rw [hz]
    rfl
  | succ fuel ih =>
    intro i hi
    have hstep : addConfettiLoop count W H radius (fuel + 1) i
        = if (i : ℚ) < (count : ℚ) / 2 then
            ⟨0, 5 * H / 7, .right, radius⟩ :: ⟨W, 5 * H / 7, .left, radius⟩ ::
              addConfettiLoop count W H radius fuel (i + 1)
          else [] := rfl
    rw [hstep]
    by_cases hc : (i : ℚ) < (count : ℚ) / 2
    · rw [if_pos hc]
      have hi2 : i < (count + 1) / 2 := (addConfettiLoop_cond_iff count i).mp hc
      rw [ih (i + 1) (by omega)]
      have hn : (count + 1) / 2 - i = ((count + 1) / 2 - (i + 1)) + 1 := by omega
      rw [hn]
      rfl
    · rw [if_neg hc]
      have hi2 : ¬ i < (count + 1) / 2 :=
        fun h => hc ((addConfettiLoop_cond_iff count i).mpr h)
      have hz : (count + 1) / 2 - i = 0 := by omega
      rw [hz]
      rfl

lemma addConfetti_eq_spawnPairs (count : ℕ) (W H radius : ℚ) :
    addConfetti count W H radius = spawnPairs W H radius ((count + 1) / 2) := by
  unfold addConfetti
  rw [addConfettiLoop_eq count W H radius (count + 1) 0 (by omega), Nat.sub_zero]

lemma spawnPairs_length (W H radius : ℚ) :
    ∀ n, (spawnPairs W H radius n).length = 2 * n := by
  intro n
  induction n with
  | zero => rfl
  | succ n ih => simp [spawnPairs, ih]; omega

lemma spawnPairs_count_right (W H radius : ℚ) :
    ∀ n, ((spawnPairs W H radius n).filter
      fun s => decide (s.direction = ConfettiDirection.right)).length = n := by
  intro n
  induction n with
  | zero => rfl
  | succ n ih => simp [spawnPairs, List.filter, ih]

lemma spawnPairs_count_left (W H radius : ℚ) :
    ∀ n, ((spawnPairs W H radius n).filter
      fun s => decide (s.direction = ConfettiDirection.left)).length = n := by
  intro n
  induction n with
  | zero => rfl
  | succ n ih => simp [spawnPairs, List.filter, ih]

lemma spawnPairs_mem (W H radius : ℚ) :
    ∀ n, ∀ s ∈ spawnPairs W H radius n,
      s.y = 5 * H / 7 ∧ s.radius = radius ∧
      (s.direction = ConfettiDirection.right → s.x = 0) ∧
      (s.direction = ConfettiDirection.left → s.x = W) := by
  intro n
  induction n with
  | zero => intro s hs; cases hs
  | succ n ih =>
    intro s hs
    rcases List.mem_cons.mp hs with hs | hs
    · subst hs; exact ⟨rfl, rfl, fun _ => rfl, fun h => ConfettiDirection.noConfusion h⟩
    rcases List.mem_cons.mp hs with hs | hs
    · subst hs; exact ⟨rfl, rfl, fun h => ConfettiDirection.noConfusion h, fun _ => rfl⟩
    · exact ih s hs

/-- Claim C3 fails for odd counts: the loop runs ceil(count/2) iterations
    and pushes two particles each, so requesting 1 particle creates 2, and
    the shipped default confettiesNumber = 295 creates 296. -/
theorem claim3_counterexample :
    (addConfetti 1 1920 700 5).length = 2 ∧ (addConfetti 1 1920 700 5).length ≠ 1 ∧
    (addConfetti confettiesNumber 1920 700 5).length = 296 ∧
    (addConfetti confettiesNumber 1920 700 5).length ≠ confettiesNumber := by
  rw [addConfetti_eq_spawnPairs, addConfetti_eq_spawnPairs,
    spawnPairs_length, spawnPairs_length]
  refine ⟨rfl, by norm_num, ?_, ?_⟩ <;> norm_num [confettiesNumber]

/-- Claim C3 as amended: addConfetti with requested count creates exactly
    2*ceil(count/2) particles, ceil(count/2) with direction right starting
    at x = 0 and ceil(count/2) with direction left starting at x = W, each
    at y = 5*H/7 before the random offset adjustment.  For even counts this
    is exactly count particles, count/2 per side, as originally claimed. -/
theorem claim3_burst_counts (count : ℕ) (W H radius : ℚ) :
    (addConfetti count W H radius).length = 2 * ((count + 1) / 2) ∧
    ((addConfetti count W H radius).filter
      fun s => decide (s.direction = ConfettiDirection.right)).length = (count + 1) / 2 ∧
    ((addConfetti count W H radius).filter
      fun s => decide (s.direction = ConfettiDirection.left)).length = (count + 1) / 2 ∧
    ∀ s ∈ addConfetti count W H radius,
      s.y = 5 * H / 7 ∧ s.radius = radius ∧
      (s.direction = ConfettiDirection.right → s.x = 0) ∧
      (s.direction = ConfettiDirection.left → s.x = W) := by
  rw [addConfetti_eq_spawnPairs]
  exact ⟨spawnPairs_length W H radius _, spawnPairs_count_right W H radius _,
    spawnPairs_count_left W H radius _, spawnPairs_mem W H radius _⟩

/-- Claim C10: for any bracket pair (a, b) and t in [0, 1] the cosine
    interpolation (1-cos(pi*t))/2 * (b-a) + a lies between min a b and
    max a b inclusive. -/
theorem claim10_interpolation_bounds (a b t : ℝ) (h0 : 0 ≤ t) (h1 : t ≤ 1) :
    min a b ≤ interpolation a b t ∧ interpolation a b t ≤ max a b := by
  have hc1 : Real.cos (Real.pi * t) ≤ 1 := Real.cos_le_one _
  have hc2 : -1 ≤ Real.cos (Real.pi * t) := Real.neg_one_le_cos _
  have hw0 : 0 ≤ (1 - Real.cos (Real.pi * t)) / 2 := by linarith
  have hw1 : (1 - Real.cos (Real.pi * t)) / 2 ≤ 1 := by linarith
  unfold interpolation
  rcases le_total a b with hab | hab
  · rw [min_eq_left hab, max_eq_right hab]
    constructor <;> nlinarith
  · rw [min_eq_right hab, max_eq_left hab]
    constructor <;> nlinarith

/-- Witness for claim10_interpolation_bounds at a = 0, b = 1, t = 1/2. -/
theorem claim10_witness :
    (0:ℝ) ≤ 1/2 ∧ (1/2:ℝ) ≤ 1 ∧
    (min (0:ℝ) 1 ≤ interpolation 0 1 (1/2) ∧ interpolation 0 1 (1/2) ≤ max (0:ℝ) 1) :=
  ⟨by norm_num, by norm_num,
    claim10_interpolation_bounds 0 1 (1/2) (by norm_num) (by norm_num)⟩

lemma confettoStep_y (height delta : ℚ) (c : Confetto) :
    (confettoStep height delta c).y = c.y + c.dy * delta := rfl

lemma confettoDoneFlag_step (height delta : ℚ) (c : Confetto) (k : ℕ) :
    confettoDoneFlag height delta (confettoStep height delta c) k ↔
      confettoDoneFlag height delta c (k + 1) := by
  unfold confettoDoneFlag
  rw [← Function.iterate_succ_apply]

lemma confettoUpdate_snd_false (height delta : ℚ) (c : Confetto) :
    (confettoUpdate height delta c).2 = false ↔
      ¬ confettoDoneFlag height delta c 1 := by
  have h2 : (confettoUpdate height delta c).2
      = decide (height + deviation < c.y + c.dy * delta) := rfl
  rw [h2, decide_eq_false_iff_not]
  unfold confettoDoneFlag
  rw [Function.iterate_one, confettoStep_y]

lemma mem_domFrameParticles (height delta : ℚ) (cs : List Confetto) (c' : Confetto) :
    c' ∈ domFrameParticles height delta cs ↔
      ∃ c ∈ cs, (confettoUpdate height delta c).2 = false ∧
        c' = confettoStep height delta c := by
  unfold domFrameParticles
  rw [List.mem_filterMap]
  constructor
  · rintro ⟨c, hc, hsome⟩
    dsimp at hsome
    by_cases hflag : (confettoUpdate height delta c).2
    · rw [if_pos hflag] at hsome
      exact Option.noConfusion hsome
    · rw [if_neg hflag] at hsome
      exact ⟨c, hc, Bool.eq_false_iff.mpr hflag,
        (Option.some.injEq _ _ ▸ hsome).symm⟩
  · rintro ⟨c, hc, hflag, rfl⟩
    refine ⟨c, hc, ?_⟩
    dsimp
    rw [hflag]
    rfl

lemma framesIter_empty (height delta : ℚ) :
    ∀ (N : ℕ) (cs : List Confetto),
      (∀ c ∈ cs, ∃ n, n < N ∧ confettoDoneFlag height delta c (n + 1)) →
      (domFrameParticles height delta)^[N] cs = [] := by
  intro N
  induction N with
  | zero =>
    intro cs h
    have hnil : cs = [] := by
      cases cs with
      | nil => rfl
      | cons c t =>
        rcases h c (List.mem_cons_self c t) with ⟨n, hn, _⟩
        omega
    rw [hnil]
    rfl
  | succ N ih =>
    intro cs h
    rw [Function.iterate_succ_apply]
    apply ih
    intro c' hc'
    rcases (mem_domFrameParticles height delta cs c').mp hc' with ⟨c, hc, hflag, rfl⟩
    rcases h c hc with ⟨n, hn, hdone⟩
    have h1 : ¬ confettoDoneFlag height delta c 1 :=
      (confettoUpdate_snd_false height delta c).mp hflag
    have hn1 : 1 ≤ n := by
      rcases Nat.eq_zero_or_pos n with rfl | hpos
      · exact absurd hdone h1
      · exact hpos
    refine ⟨n - 1, by omega, ?_⟩
    rw [confettoDoneFlag_step]
    have harith : n - 1 + 1 + 1 = n + 1 := by omega
    rw [harith]
    exact hdone

lemma domLoopStep_attached (height delta : ℚ) (s : DomSystemState)
    (ha : s.attached = true) :
    domLoopStep height delta s =
      if s.timer || !(domFrameParticles height delta s.confetti).isEmpty then
        { s with confetti := domFrameParticles height delta s.confetti }
      else { timer := s.timer, confetti := domFrameParticles height delta s.confetti,
             attached := false } := by
  unfold domLoopStep
  rw [ha]
  rfl

lemma domLoopStep_detached (height delta : ℚ) (s : DomSystemState)
    (h : s.attached = false) : domLoopStep height delta s = s := by
  unfold domLoopStep
  rw [h]
  rfl

lemma iterate_domLoopStep_detached (height delta : ℚ) (s : DomSystemState)
    (h : s.attached = false) :
    ∀ N, (domLoopStep height delta)^[N] s = s := by
  intro N
  induction N with
  | zero => rfl
  | succ N ih =>
    rw [Function.iterate_succ_apply, domLoopStep_detached height delta s h, ih]

lemma domLoop_term_aux (height delta : ℚ) :
    ∀ (N : ℕ) (s : DomSystemState), s.timer = false → s.attached = true →
      (domFrameParticles height delta)^[N] s.confetti = [] →
      (domLoopStep height delta)^[N + 1] s = ⟨false, [], false⟩ := by
  intro N
  induction N with
  | zero =>
    intro s ht ha hcs
    have hcs0 : s.confetti = [] := hcs
    have hstep : domLoopStep height delta s = ⟨false, [], false⟩ := by
      rw [domLoopStep_attached height delta s ha, ht, hcs0]
      rfl
    rw [Function.iterate_one, hstep]
  | succ N ih =>
    intro s ht ha hcs
    rw [Function.iterate_succ_apply]
    by_cases hempty : domFrameParticles height delta s.confetti = []
    · have hstep : domLoopStep height delta s = ⟨false, [], false⟩ := by
        rw [domLoopStep_attached height delta s ha, ht, hempty]
        rfl
      rw [hstep]
      exact iterate_domLoopStep_detached height delta ⟨false, [], false⟩ rfl (N + 1)
    · have hne : (domFrameParticles height delta s.confetti).isEmpty = false := by
        rw [Bool.eq_false_iff]
        intro habs
        exact hempty (List.isEmpty_iff.mp habs)
      have hstep : domLoopStep height delta s
          = ⟨s.timer, domFrameParticles height delta s.confetti, s.attached⟩ := by
        rw [domLoopStep_attached height delta s ha, hne, Bool.not_false, Bool.or_true]
        rfl
      rw [hstep]
      apply ih ⟨s.timer, domFrameParticles height delta s.confetti, s.attached⟩ ht ha
      have hiter : (domFrameParticles height delta)^[N]
            (domFrameParticles height delta s.confetti)
          = (domFrameParticles height delta)^[N + 1] s.confetti :=
        (Function.iterate_succ_apply (domFrameParticles height delta) N s.confetti).symm
      rw [hiter]
      exact hcs

lemma list_exists_uniform_bound {α : Type} (P : α → ℕ → Prop) :
    ∀ (l : List α), (∀ c ∈ l, ∃ n, P c n) → ∃ N, ∀ c ∈ l, ∃ n, n < N ∧ P c n := by
  intro l
  induction l with
  | nil => exact fun _ => ⟨1, fun c hc => absurd hc (List.not_mem_nil c)⟩
  | cons a t ih =>
    intro h
    rcases h a (List.mem_cons_self a t) with ⟨na, hna⟩
    rcases ih (fun c hc => h c (List.mem_cons_of_mem a hc)) with ⟨Nt, hNt⟩
    refine ⟨Nat.max (na + 1) Nt, ?_⟩
    intro c hc
    rcases List.mem_cons.mp hc with rfl | hc
    · exact ⟨na, Nat.lt_of_lt_of_le (Nat.lt_succ_self na) (Nat.le_max_left _ _), hna⟩
    · rcases hNt c hc with ⟨n, hn, hp⟩
      exact ⟨n, Nat.lt_of_lt_of_le hn (Nat.le_max_right _ _), hp⟩

/-- Claim C7: the DOM frame loop reschedules itself exactly when a spawn
    timer is pending or live particles remain, and otherwise detaches the
    container and stops; consequently, once the spawn scheduler has stopped
    (timer cleared, as in the mocked setting) and every live particle's
    update eventually reports done, the live-particle sequence empties and
    the container is detached within a bounded number of frames. -/
theorem claim7_dom_termination (height delta : ℚ) (s : DomSystemState)
    (ha : s.attached = true) :
    ((domLoopStep height delta s).attached = true ↔
      (s.timer = true ∨ domFrameParticles height delta s.confetti ≠ [])) ∧
    (s.timer = false →
      (∀ c ∈ s.confetti, ∃ n, confettoDoneFlag height delta c (n + 1)) →
      ∃ N, (domLoopStep height delta)^[N] s = ⟨false, [], false⟩ ∧
        ((domLoopStep height delta)^[N] s).confetti = []) := by
  constructor
  · rw [domLoopStep_attached height delta s ha]
    by_cases ht : s.timer = true
    · rw [ht, Bool.true_or]
      exact ⟨fun _ => Or.inl rfl, fun _ => ha⟩
    · have ht2 : s.timer = false := Bool.eq_false_iff.mpr ht
      rw [ht2, Bool.false_or]
      by_cases hempty : domFrameParticles height delta s.confetti = []
      · rw [hempty]
        constructor
        · intro habs
          exact absurd habs (Bool.false_ne_true)
        · rintro (habs | habs)
          · exact absurd habs Bool.false_ne_true
          · exact absurd rfl habs
      · have hne : (domFrameParticles height delta s.confetti).isEmpty = false := by
          rw [Bool.eq_false_iff]
          intro habs
          exact hempty (List.isEmpty_iff.mp habs)
        rw [hne, Bool.not_false]
        exact ⟨fun _ => Or.inr hempty, fun _ => ha⟩
  · intro ht hall
    rcases list_exists_uniform_bound (confettoDoneFlag height delta · <| · + 1)
      s.confetti hall with ⟨N0, hN0⟩
    have hframes : (domFrameParticles height delta)^[N0] s.confetti = [] :=
      framesIter_empty height delta N0 s.confetti hN0
    refine ⟨N0 + 1, domLoop_term_aux height delta N0 s ht ha hframes, ?_⟩
    rw [domLoop_term_aux height delta N0 s ht ha hframes]

lemma domSysStep_preserves (s : DomSystemState) (e : DomEvent)
    (ht : s.timer = true) (ha : s.attached = true) :
    (domSysStep s e).timer = true ∧ (domSysStep s e).attached = true := by
  cases e with
  | spawn c =>
    unfold domSysStep
    rw [ht]
    exact ⟨rfl, ha⟩
  | frame height delta =>
    have hd : domSysStep s (.frame height delta) = domLoopStep height delta s := rfl
    rw [hd, domLoopStep_attached height delta s ha, ht, Bool.true_or]
    exact ⟨rfl, ha⟩

/-- Claim C8: in the unmocked DOM system every spawn callback reschedules
    itself and overwrites the timer handle with a truthy one, and no code
    path clears it; hence after domStart, under any interleaving of spawn
    firings and frames, the loop's termination test always sees a pending
    spawn, every frame reschedules, and the cleanup branch that detaches
    the container is never reached. -/
theorem claim8_spawn_always_pending (c0 : Confetto) (evs : List DomEvent) :
    (evs.foldl domSysStep (domStart c0)).timer = true ∧
    (evs.foldl domSysStep (domStart c0)).attached = true := by
  have main : ∀ (l : List DomEvent) (s : DomSystemState), s.timer = true →
      s.attached = true → (l.foldl domSysStep s).timer = true ∧
      (l.foldl domSysStep s).attached = true := by
    intro l
    induction l with
    | nil => exact fun s ht ha => ⟨ht, ha⟩
    | cons e es ih =>
      intro s ht ha
      have h := domSysStep_preserves s e ht ha
      exact ih (domSysStep s e) h.1 h.2
  exact main evs (domStart c0) rfl rfl

/-- Witness for claim7_dom_termination: a mocked state with a stopped
    scheduler and three particles that all die on their first update. -/
theorem claim7_witness :
    sampleDomState.attached = true ∧ sampleDomState.timer = false ∧
    (∀ c ∈ sampleDomState.confetti, ∃ n, confettoDoneFlag 0 1 c (n + 1)) ∧
    ∃ N, (domLoopStep 0 1)^[N] sampleDomState = ⟨false, [], false⟩ ∧
      ((domLoopStep 0 1)^[N] sampleDomState).confetti = [] := by
  have hflag : ∀ c ∈ sampleDomState.confetti, ∃ n, confettoDoneFlag 0 1 c (n + 1) := by
    intro c hc
    refine ⟨0, ?_⟩
    have hc2 : c ∈ sampleConfetti3 := hc
    rcases List.mem_cons.mp hc2 with rfl | hc2
    · norm_num [confettoDoneFlag, confettoStep, confettoUpdate, deviation]
    rcases List.mem_cons.mp hc2 with rfl | hc2
    · norm_num [confettoDoneFlag, confettoStep, confettoUpdate, deviation]
    rcases List.mem_cons.mp hc2 with rfl | hc2
    · norm_num [confettoDoneFlag, confettoStep, confettoUpdate, deviation]
    · exact absurd hc2 (List.not_mem_nil c)
  exact ⟨rfl, rfl, hflag,
    (claim7_dom_termination 0 1 sampleDomState rfl).2 rfl hflag⟩

lemma radius_pos : (0 : ℚ) < radius := by norm_num [radius]

lemma pickDart_mem : ∀ (xs : List (ℚ × ℚ)) (acc dart0 dart : ℚ), acc ≤ dart0 →
    pickDart dart0 xs acc = some dart →
    ∃ ab ∈ xs, ab.1 ≤ dart ∧ dart < ab.2 := by
  intro xs
  induction xs with
  | nil => intro acc dart0 dart _ h; exact Option.noConfusion h
  | cons ab rest ih =>
    intro acc dart0 dart hacc h
    rcases ab with ⟨a, b⟩
    unfold pickDart at h
    by_cases hc : dart0 < acc + (b - a)
    · rw [if_pos hc] at h
      have hd : dart = dart0 + a - acc := (Option.some_inj.mp h).symm
      refine ⟨(a, b), List.mem_cons_self _ _, ?_, ?_⟩
      · dsimp only
        rw [hd]
        linarith
      · dsimp only
        rw [hd]
        linarith
    · rw [if_neg hc] at h
      push_neg at hc
      rcases ih (acc + (b - a)) dart0 dart hc h with ⟨ab2, hmem, hab⟩
      exact ⟨ab2, List.mem_cons_of_mem _ hmem, hab⟩

lemma updateInterval_spec (c d : ℚ) (ab p : ℚ × ℚ) (hab : ab.1 < ab.2)
    (hcd : c < d) (hp : p ∈ updateInterval c d ab) :
    (ab.1 ≤ p.1 ∧ p.2 ≤ ab.2) ∧ p.1 < p.2 ∧ (p.2 ≤ c ∨ d ≤ p.1) := by
  rcases ab with ⟨a, b⟩
  dsimp only at hab
  unfold updateInterval at hp
  dsimp only at hp
  split_ifs at hp with h1 h2 h3 h4
  · rcases List.mem_singleton.mp hp with rfl
    exact ⟨⟨by linarith [h1.2], le_refl b⟩, h2, Or.inr (le_refl d)⟩
  · exact absurd hp (List.not_mem_nil p)
  · rcases List.mem_singleton.mp hp with rfl
    exact ⟨⟨le_refl a, le_of_lt h3.2⟩, h3.1, Or.inl (le_refl c)⟩
  · rcases List.mem_cons.mp hp with rfl | hp2
    · exact ⟨⟨le_refl a, le_of_lt h3.2⟩, h3.1, Or.inl (le_refl c)⟩
    · rcases List.mem_singleton.mp hp2 with rfl
      push_neg at h4
      exact ⟨⟨by linarith [h3.1], le_refl b⟩, h4, Or.inr (le_refl d)⟩
  · rcases List.mem_singleton.mp hp with rfl
    push_neg at h1 h3
    refine ⟨⟨le_refl a, le_refl b⟩, hab, ?_⟩
    by_cases hca : c ≤ a
    · exact Or.inr (h1 hca)
    · push_neg at hca
      exact Or.inl (h3 hca)


lemma measureOf_nonneg (domain : List (ℚ × ℚ))
    (h : ∀ ab ∈ domain, ab.1 ≤ ab.2) : 0 ≤ measureOf domain := by
  induction domain with
  | nil => exact le_refl 0
  | cons ab rest ih =>
    have h1 := h ab (List.mem_cons_self _ _)
    have h2 := ih fun x hx => h x (List.mem_cons_of_mem _ hx)
    unfold measureOf at h2 ⊢
    rw [List.map_cons, List.sum_cons]
    linarith

lemma poissonStep_inv (rnd : ℚ) (st st' : PoissonState)
    (hinv : PoissonInv st) (hm : st.measure ≠ 0) (hr0 : 0 ≤ rnd)
    (hstep : poissonStep rnd st = some st') : PoissonInv st' := by
  obtain ⟨hA, hB, h0, h1, hD, hND, hE, hF⟩ := hinv
  unfold poissonStep at hstep
  rcases hpick : pickDart (st.measure * rnd) st.domain 0 with _ | dart
  · rw [hpick] at hstep
    exact Option.noConfusion hstep
  rw [hpick] at hstep
  have hst' : st' = ⟨updateDomain (dart - radius) (dart + radius) st.domain,
      measureOf (updateDomain (dart - radius) (dart + radius) st.domain),
      st.spline ++ [dart]⟩ := (Option.some_inj.mp hstep).symm
  have hmnn : 0 ≤ st.measure := by
    rw [hB]
    exact measureOf_nonneg st.domain fun ab hab => le_of_lt (hA ab hab).2.1
  have hdart0 : 0 ≤ st.measure * rnd := mul_nonneg hmnn hr0
  rcases pickDart_mem st.domain 0 (st.measure * rnd) dart hdart0 hpick
    with ⟨ab0, hab0, hda, hdb⟩
  have habA := hA ab0 hab0
  have hdlow : radius ≤ dart := le_trans habA.1 hda
  have hdhigh : dart < 1 - radius := lt_of_lt_of_le hdb habA.2.2
  have hcd : dart - radius < dart + radius := by linarith [radius_pos]
  -- separation of the new dart from every existing spline entry
  have hsep_new : ∀ s ∈ st.spline, radius ≤ |dart - s| := by
    intro s hs
    rcases hF ab0 hab0 s hs with rfl | rfl | hcase | hcase
    · rw [sub_zero, abs_of_nonneg (by linarith [radius_pos])]
      exact hdlow
    · rw [abs_of_nonpos (by linarith), neg_sub]
      linarith
    · rw [abs_of_nonneg (by linarith)]
      linarith
    · rw [abs_of_nonpos (by linarith), neg_sub]
      linarith
  have hne_new : ∀ s ∈ st.spline, dart ≠ s := by
    intro s hs he
    have := hsep_new s hs
    rw [he, sub_self, abs_zero] at this
    linarith [radius_pos]
  -- interval membership in the updated domain
  have hmem_dom : ∀ p ∈ updateDomain (dart - radius) (dart + radius) st.domain,
      ∃ ab ∈ st.domain, p ∈ updateInterval (dart - radius) (dart + radius) ab := by
    intro p hp
    rcases List.mem_flatMap.mp hp with ⟨ab, hab, hpab⟩
    exact ⟨ab, hab, hpab⟩
  rw [hst']
  refine ⟨?_, rfl, ?_, ?_, ?_, ?_, ?_, ?_⟩
  · -- A
    intro p hp
    rcases hmem_dom p hp with ⟨ab, hab, hpab⟩
    have hspec := updateInterval_spec _ _ ab p (hA ab hab).2.1 hcd hpab
    exact ⟨le_trans (hA ab hab).1 hspec.1.1, hspec.2.1,
      le_trans hspec.1.2 (hA ab hab).2.2⟩
  · exact List.mem_append_left _ h0
  · exact List.mem_append_left _ h1
  · -- D
    intro s hs
    rcases List.mem_append.mp hs with hs | hs
    · exact hD s hs
    · rcases List.mem_singleton.mp hs with rfl
      constructor
      · linarith [radius_pos]
      · linarith [radius_pos]
  · -- Nodup
    rw [List.nodup_append]
    refine ⟨hND, List.nodup_singleton dart, ?_⟩
    intro s hs hs1
    rcases List.mem_singleton.mp hs1 with rfl
    exact (hne_new s hs) rfl
  · -- E
    intro s hs t ht hne
    rcases List.mem_append.mp hs with hs1 | hs1
    · rcases List.mem_append.mp ht with ht1 | ht1
      · exact hE s hs1 t ht1 hne
      · have htd : t = dart := List.mem_singleton.mp ht1
        rw [htd, abs_sub_comm]
        exact hsep_new s hs1
    · have hsd : s = dart := List.mem_singleton.mp hs1
      rcases List.mem_append.mp ht with ht1 | ht1
      · rw [hsd]
        exact hsep_new t ht1
      · have htd : t = dart := List.mem_singleton.mp ht1
        rw [hsd, htd] at hne
        exact absurd rfl hne
  · -- F
    intro p hp s hs
    rcases hmem_dom p hp with ⟨ab, hab, hpab⟩
    have hspec := updateInterval_spec _ _ ab p (hA ab hab).2.1 hcd hpab
    rcases List.mem_append.mp hs with hs | hs
    · rcases hF ab hab s hs with rfl | rfl | hcase | hcase
      · exact Or.inl rfl
      · exact Or.inr (Or.inl rfl)
      · exact Or.inr (Or.inr (Or.inl (le_trans hcase hspec.1.1)))
      · exact Or.inr (Or.inr (Or.inr (le_trans hspec.1.2 hcase)))
    · rcases List.mem_singleton.mp hs with rfl
      rcases hspec.2.2 with hc | hc
      · exact Or.inr (Or.inr (Or.inr hc))
      · exact Or.inr (Or.inr (Or.inl hc))

lemma sorted_head_eq_zero (L : List ℚ) (hs : L.Sorted (· ≤ ·)) (h0 : (0:ℚ) ∈ L)
    (hb : ∀ x ∈ L, 0 ≤ x) : L.head? = some 0 := by
  cases L with
  | nil => cases h0
  | cons a t =>
    have h1 : a ≤ 0 := by
      rcases List.mem_cons.mp h0 with h | h0t
      · rw [← h]
      · exact (List.sorted_cons.mp hs).1 0 h0t
    have h2 : 0 ≤ a := hb a (List.mem_cons_self _ _)
    rw [List.head?_cons, le_antisymm h1 h2]

lemma sorted_getLast_eq_one : ∀ (L : List ℚ), L.Sorted (· ≤ ·) → (1:ℚ) ∈ L →
    (∀ x ∈ L, x ≤ 1) → L.getLast? = some 1 := by
  intro L
  induction L with
  | nil => intro _ h _; cases h
  | cons a t ih =>
    intro hs h1 hb
    cases t with
    | nil =>
      have : a = 1 := (List.mem_singleton.mp h1).symm
      rw [this]
      rfl
    | cons b t2 =>
      rw [List.getLast?_cons_cons]
      refine ih (List.sorted_cons.mp hs).2 ?_ ?_
      · rcases List.mem_cons.mp h1 with h | h1t
        · have hab : (1:ℚ) ≤ b := by
            rw [h]
            exact (List.sorted_cons.mp hs).1 b (List.mem_cons_self _ _)
          have hb1 : b ≤ 1 := hb b (List.mem_cons_of_mem _ (List.mem_cons_self _ _))
          rw [← le_antisymm hb1 hab]
          exact List.mem_cons_self _ _
        · exact h1t
      · exact fun x hx => hb x (List.mem_cons_of_mem _ hx)

lemma chain_of_sorted_nodup_sep : ∀ (L : List ℚ), L.Sorted (· ≤ ·) → L.Nodup →
    (∀ s ∈ L, ∀ t ∈ L, s ≠ t → radius ≤ |s - t|) →
    List.Chain' (fun x y => x + radius ≤ y) L := by
  intro L
  induction L with
  | nil => exact fun _ _ _ => List.chain'_nil
  | cons a t ih =>
    intro hs hnd hsep
    cases t with
    | nil => exact List.chain'_singleton a
    | cons b t2 =>
      rw [List.chain'_cons]
      constructor
      · have hab : a ≤ b := (List.sorted_cons.mp hs).1 b (List.mem_cons_self _ _)
        have hne : a ≠ b := by
          intro he
          exact (List.nodup_cons.mp hnd).1 (he ▸ List.mem_cons_self b t2)
        have hd := hsep a (List.mem_cons_self _ _) b
          (List.mem_cons_of_mem _ (List.mem_cons_self _ _)) hne
        rw [abs_of_nonpos (by linarith)] at hd
        linarith
      · exact ih (List.sorted_cons.mp hs).2 (List.nodup_cons.mp hnd).2
          fun s hsm t htm hne => hsep s (List.mem_cons_of_mem _ hsm) t
            (List.mem_cons_of_mem _ htm) hne

lemma sorted_spline_spec (sp : List ℚ) (h0 : (0:ℚ) ∈ sp) (h1 : (1:ℚ) ∈ sp)
    (hbound : ∀ s ∈ sp, 0 ≤ s ∧ s ≤ 1) (hnd : sp.Nodup)
    (hsep : ∀ s ∈ sp, ∀ t ∈ sp, s ≠ t → radius ≤ |s - t|) :
    (List.insertionSort (· ≤ ·) sp).Sorted (· ≤ ·) ∧
    (List.insertionSort (· ≤ ·) sp).head? = some 0 ∧
    (List.insertionSort (· ≤ ·) sp).getLast? = some 1 ∧
    List.Chain' (fun x y => x + radius ≤ y) (List.insertionSort (· ≤ ·) sp) := by
  have hperm : (List.insertionSort (· ≤ ·) sp).Perm sp := List.perm_insertionSort _ _
  have hsorted : (List.insertionSort (· ≤ ·) sp).Sorted (· ≤ ·) :=
    List.sorted_insertionSort _ _
  have hmem : ∀ x : ℚ, x ∈ List.insertionSort (· ≤ ·) sp ↔ x ∈ sp :=
    fun x => hperm.mem_iff
  refine ⟨hsorted, ?_, ?_, ?_⟩
  · exact sorted_head_eq_zero _ hsorted ((hmem 0).mpr h0)
      fun x hx => (hbound x ((hmem x).mp hx)).1
  · exact sorted_getLast_eq_one _ hsorted ((hmem 1).mpr h1)
      fun x hx => (hbound x ((hmem x).mp hx)).2
  · exact chain_of_sorted_nodup_sep _ hsorted (hperm.nodup_iff.mpr hnd)
      fun s hsm t htm hne => hsep s ((hmem s).mp hsm) t ((hmem t).mp htm) hne

lemma createPoissonLoop_spec : ∀ (fuel : ℕ) (rnds : List ℚ) (st : PoissonState)
    (L : List ℚ), PoissonInv st → (∀ r ∈ rnds, 0 ≤ r) →
    createPoissonLoop fuel rnds st = some L →
    L.Sorted (· ≤ ·) ∧ L.head? = some 0 ∧ L.getLast? = some 1 ∧
    List.Chain' (fun x y => x + radius ≤ y) L := by
  intro fuel
  induction fuel with
  | zero =>
    intro rnds st L hinv hr hres
    unfold createPoissonLoop at hres
    by_cases hm : st.measure = 0
    · rw [if_pos hm] at hres
      obtain ⟨_, _, h0, h1, hD, hND, hE, _⟩ := hinv
      rw [← Option.some_inj.mp hres]
      exact sorted_spline_spec st.spline h0 h1 hD hND hE
    · rw [if_neg hm] at hres
      exact Option.noConfusion hres
  | succ fuel ih =>
    intro rnds st L hinv hr hres
    unfold createPoissonLoop at hres
    by_cases hm : st.measure = 0
    · rw [if_pos hm] at hres
      obtain ⟨_, _, h0, h1, hD, hND, hE, _⟩ := hinv
      rw [← Option.some_inj.mp hres]
      exact sorted_spline_spec st.spline h0 h1 hD hND hE
    · rw [if_neg hm] at hres
      cases rnds with
      | nil => exact Option.noConfusion hres
      | cons rnd rest =>
        dsimp only at hres
        rcases hstep : poissonStep rnd st with _ | st'
        · rw [hstep] at hres
          exact Option.noConfusion hres
        · rw [hstep] at hres
          exact ih rest st' L
            (poissonStep_inv rnd st st' hinv hm
              (hr rnd (List.mem_cons_self _ _)) hstep)
            (fun r h => hr r (List.mem_cons_of_mem _ h)) hres

lemma poissonInit_inv :
    PoissonInv ⟨[(radius, 1 - radius)], 1 - radius2, [0, 1]⟩ := by
  refine ⟨?_, ?_, ?_, ?_, ?_, ?_, ?_, ?_⟩
  · intro ab hab
    rcases List.mem_singleton.mp hab with rfl
    norm_num [radius]
  · norm_num [measureOf, radius, radius2]
  · exact List.mem_cons_self _ _
  · exact List.mem_cons_of_mem _ (List.mem_cons_self _ _)
  · intro s hs
    fin_cases hs <;> norm_num
  · norm_num
  · intro s hs t ht hne
    fin_cases hs <;> fin_cases ht
    · exact absurd rfl hne
    · norm_num [radius]
    · norm_num [radius]
    · exact absurd rfl hne
  · intro ab hab s hs
    fin_cases hs
    · exact Or.inl rfl
    · exact Or.inr (Or.inl rfl)

lemma createPoisson_spec (fuel : ℕ) (rnds : List ℚ) (L : List ℚ)
    (hr : ∀ r ∈ rnds, 0 ≤ r) (hres : createPoisson fuel rnds = some L) :
    L.Sorted (· ≤ ·) ∧ L.head? = some 0 ∧ L.getLast? = some 1 ∧
    List.Chain' (fun x y => x + radius ≤ y) L :=
  createPoissonLoop_spec fuel rnds _ L poissonInit_inv hr hres

lemma createPoisson_sample_eval :
    createPoisson 6 [0, 1/7, 1/5, 1/3, 0]
      = some [0, 1/10, 3/10, 1/2, 7/10, 4/5, 1] := by
  norm_num [createPoisson, createPoissonLoop, poissonStep, pickDart, updateDomain,
    updateInterval, measureOf, radius, radius2, List.insertionSort, List.orderedInsert]

/-- Claim C1 fails on the code: the sampler only guarantees a minimum gap
    of radius = 1/eccentricity = 0.1, not 2*radius = 0.2 - the domain
    starts only radius away from the endpoints and each dart excludes only
    the open window (dart - radius, dart + radius).  With the draw stream
    0, 1/7, 1/5, 1/3, 0 (all in [0, 1)) the returned sequence is
    [0, 1/10, 3/10, 1/2, 7/10, 4/5, 1], whose first adjacent gap is
    1/10 < 2*radius. -/
theorem claim1_counterexample :
    (∀ r ∈ ([0, 1/7, 1/5, 1/3, 0] : List ℚ), 0 ≤ r ∧ r < 1) ∧
    createPoisson 6 [0, 1/7, 1/5, 1/3, 0]
      = some [0, 1/10, 3/10, 1/2, 7/10, 4/5, 1] ∧
    ¬ List.Chain' (fun x y : ℚ => x + 2 * radius ≤ y)
      [0, 1/10, 3/10, 1/2, 7/10, 4/5, 1] := by
  refine ⟨by norm_num, createPoisson_sample_eval, ?_⟩
  intro hchain
  rw [List.chain'_cons] at hchain
  have hgap := hchain.1
  norm_num [radius] at hgap

/-- Claim C1 as amended: every sample sequence returned by createPoisson
    (eccentricity 10, radius 1/10) is sorted ascending, starts at 0, ends
    at 1, and every pair of adjacent samples differs by at least
    radius = 1/eccentricity = 0.1 (not 2*radius = 0.2). -/
theorem claim1_poisson_spacing (fuel : ℕ) (rnds : List ℚ) (L : List ℚ)
    (hr : ∀ r ∈ rnds, 0 ≤ r ∧ r < 1)
    (hres : createPoisson fuel rnds = some L) :
    L.Sorted (· ≤ ·) ∧ L.head? = some 0 ∧ L.getLast? = some 1 ∧
    List.Chain' (fun x y => x + radius ≤ y) L :=
  createPoisson_spec fuel rnds L (fun r h => (hr r h).1) hres

/-- Witness for claim1_poisson_spacing on the concrete draw stream. -/
theorem claim1_witness :
    (∀ r ∈ ([0, 1/7, 1/5, 1/3, 0] : List ℚ), 0 ≤ r ∧ r < 1) ∧
    (([0, 1/10, 3/10, 1/2, 7/10, 4/5, 1] : List ℚ).Sorted (· ≤ ·) ∧
     ([0, 1/10, 3/10, 1/2, 7/10, 4/5, 1] : List ℚ).head? = some 0 ∧
     ([0, 1/10, 3/10, 1/2, 7/10, 4/5, 1] : List ℚ).getLast? = some 1 ∧
     List.Chain' (fun x y => x + radius ≤ y)
       ([0, 1/10, 3/10, 1/2, 7/10, 4/5, 1] : List ℚ)) :=
  ⟨by norm_num,
    claim1_poisson_spacing 6 [0, 1/7, 1/5, 1/3, 0] _ (by norm_num)
      createPoisson_sample_eval⟩

lemma confettoPhi_bounds (f : ℚ) (hf : 0 ≤ f) :
    0 ≤ confettoPhi f ∧ confettoPhi f < 1 := by
  have h77 : (0:ℚ) < 7777 := by norm_num
  have hdiv : 0 ≤ f / 7777 := div_nonneg hf (le_of_lt h77)
  have heq : confettoPhi f = Int.fract (f / 7777) := by
    unfold confettoPhi jsMod jsTrunc
    rw [if_neg (not_lt.mpr hdiv)]
    unfold Int.fract
    field_simp
  rw [heq]
  exact ⟨Int.fract_nonneg _, Int.fract_lt_one _⟩

lemma mkSplineY_length (sx : List ℚ) (rnd : ℕ → ℚ) (h2 : 2 ≤ sx.length) :
    (mkSplineY sx rnd).length = sx.length := by
  unfold mkSplineY
  simp only [List.length_cons, List.length_append, List.length_map,
    List.length_range, List.length_nil]
  omega

lemma length_ge_two_of_head_getLast (L : List ℚ) (hh : L.head? = some 0)
    (hl : L.getLast? = some 1) : 2 ≤ L.length := by
  cases L with
  | nil => cases hh
  | cons a t =>
    cases t with
    | nil =>
      have h1 : a = 0 := Option.some_inj.mp hh
      have h2 : a = 1 := Option.some_inj.mp hl
      rw [h1] at h2
      norm_num at h2
    | cons b t2 =>
      simp only [List.length_cons]
      omega

lemma bracketGo_spec (phi : ℚ) : ∀ (suffix : List ℚ) (xs : List ℚ) (j : ℕ),
    1 ≤ j → suffix = xs.drop j →
    (∃ u, xs[j - 1]? = some u ∧ u ≤ phi) →
    xs.getLast? = some 1 → phi < 1 →
    1 ≤ bracketGo phi suffix j ∧
    (∃ xi xj, xs[bracketGo phi suffix j - 1]? = some xi ∧
      xs[bracketGo phi suffix j]? = some xj ∧ xi ≤ phi ∧ phi < xj) := by
  intro suffix
  induction suffix with
  | nil =>
    intro xs j h1j hdrop hprev hlast hphi
    exfalso
    rcases hprev with ⟨u, hu, hule⟩
    have hlen : xs.length ≤ j := List.drop_eq_nil_iff.mp hdrop.symm
    have hjlt : j - 1 < xs.length := by
      by_contra hge
      rw [List.getElem?_eq_none (by omega)] at hu
      exact Option.noConfusion hu
    have hj1 : j - 1 = xs.length - 1 := by omega
    have hgl : xs.getLast? = xs[xs.length - 1]? := List.getLast?_eq_getElem? xs
    rw [hgl, ← hj1, hu] at hlast
    have hu1 : u = 1 := Option.some_inj.mp hlast
    rw [hu1] at hule
    linarith
  | cons v rest ih =>
    intro xs j h1j hdrop hprev hlast hphi
    have hv : xs[j]? = some v := by
      have h0 : (xs.drop j)[0]? = xs[j + 0]? := List.getElem?_drop xs j 0
      rw [← hdrop, Nat.add_zero, List.getElem?_cons_zero] at h0
      exact h0.symm
    have hrest : rest = xs.drop (j + 1) := by
      have h1 : (xs.drop j).drop 1 = xs.drop (j + 1) := by
        rw [List.drop_drop, Nat.add_comm]
      rw [← hdrop, List.drop_one, List.tail_cons] at h1
      exact h1
    unfold bracketGo
    by_cases hc : v ≤ phi
    · rw [if_pos hc]
      exact ih xs (j + 1) (by omega) hrest
        ⟨v, by rw [Nat.add_sub_cancel]; exact hv, hc⟩ hlast hphi
    · rw [if_neg hc]
      push_neg at hc
      rcases hprev with ⟨u, hu, hule⟩
      exact ⟨h1j, u, v, hu, hv, hule, hc⟩

/-- Claim C9: for a Confetto whose splineX comes from createPoisson and
    whose splineY the constructor builds from it, splineY has the same
    length as splineX, and in an update call whose incremented frame is
    nonnegative the periodic index phi = (frame mod 7777)/7777 lies in
    [0, 1) within [splineX[0], splineX[last]] = [0, 1], so the bracket
    search terminates at an in-bounds j with splineX[j-1] <= phi <
    splineX[j]. -/
theorem claim9_spline_bracket_safety (fuel : ℕ) (rnds : List ℚ) (rnd : ℕ → ℚ)
    (sx : List ℚ) (c : Confetto) (height delta : ℚ)
    (hpois : createPoisson fuel rnds = some sx)
    (hr : ∀ r ∈ rnds, 0 ≤ r ∧ r < 1)
    (hsx : c.splineX = sx) (hsy : c.splineY = mkSplineY sx rnd)
    (hframe : 0 ≤ c.frame + delta) :
    c.splineY.length = c.splineX.length ∧
    (confettoUpdate height delta c).1.frame = c.frame + delta ∧
    (0 ≤ confettoPhi (c.frame + delta) ∧ confettoPhi (c.frame + delta) < 1) ∧
    c.splineX.head? = some 0 ∧ c.splineX.getLast? = some 1 ∧
    1 ≤ bracketIdx c.splineX (confettoPhi (c.frame + delta)) ∧
    bracketIdx c.splineX (confettoPhi (c.frame + delta)) < c.splineX.length ∧
    ∃ xi xj,
      c.splineX[bracketIdx c.splineX (confettoPhi (c.frame + delta)) - 1]? = some xi ∧
      c.splineX[bracketIdx c.splineX (confettoPhi (c.frame + delta))]? = some xj ∧
      xi ≤ confettoPhi (c.frame + delta) ∧ confettoPhi (c.frame + delta) < xj := by
  subst hsx
  obtain ⟨hsorted, hhead, hlastx, hchain⟩ :=
    createPoisson_spec fuel rnds c.splineX (fun r h => (hr r h).1) hpois
  have h2 : 2 ≤ c.splineX.length := length_ge_two_of_head_getLast _ hhead hlastx
  obtain ⟨hphi0, hphi1⟩ := confettoPhi_bounds (c.frame + delta) hframe
  have hget0 : c.splineX[0]? = some 0 := by
    rw [← List.head?_eq_getElem?]
    exact hhead
  have hspec := bracketGo_spec (confettoPhi (c.frame + delta)) (c.splineX.drop 1)
    c.splineX 1 (le_refl 1) rfl ⟨0, hget0, hphi0⟩ hlastx hphi1
  have hidx : bracketIdx c.splineX (confettoPhi (c.frame + delta))
      = bracketGo (confettoPhi (c.frame + delta)) (c.splineX.drop 1) 1 := rfl
  have hlt : bracketIdx c.splineX (confettoPhi (c.frame + delta)) < c.splineX.length := by
    rcases hspec.2 with ⟨xi, xj, hxi, hxj, hle, hgt⟩
    by_contra hge
    rw [hidx] at hge
    rw [List.getElem?_eq_none (by omega)] at hxj
    exact Option.noConfusion hxj
  refine ⟨?_, rfl, ⟨hphi0, hphi1⟩, hhead, hlastx, ?_, hlt, ?_⟩
  · rw [hsy, mkSplineY_length _ _ h2]
  · rw [hidx]
    exact hspec.1
  · rw [hidx]
    exact hspec.2

/-- Witness for claim9_spline_bracket_safety on the concrete sampler run
    and particle. -/
theorem claim9_witness :
    (∀ r ∈ ([0, 1/7, 1/5, 1/3, 0] : List ℚ), 0 ≤ r ∧ r < 1) ∧
    (0 : ℚ) ≤ sampleConfetto.frame + 5 ∧
    (sampleConfetto.splineY.length = sampleConfetto.splineX.length ∧
     (confettoUpdate 600 5 sampleConfetto).1.frame = sampleConfetto.frame + 5 ∧
     (0 ≤ confettoPhi (sampleConfetto.frame + 5) ∧
      confettoPhi (sampleConfetto.frame + 5) < 1) ∧
     sampleConfetto.splineX.head? = some 0 ∧
     sampleConfetto.splineX.getLast? = some 1 ∧
     1 ≤ bracketIdx sampleConfetto.splineX (confettoPhi (sampleConfetto.frame + 5)) ∧
     bracketIdx sampleConfetto.splineX (confettoPhi (sampleConfetto.frame + 5))
       < sampleConfetto.splineX.length ∧
     ∃ xi xj,
       sampleConfetto.splineX[bracketIdx sampleConfetto.splineX
         (confettoPhi (sampleConfetto.frame + 5)) - 1]? = some xi ∧
       sampleConfetto.splineX[bracketIdx sampleConfetto.splineX
         (confettoPhi (sampleConfetto.frame + 5))]? = some xj ∧
       xi ≤ confettoPhi (sampleConfetto.frame + 5) ∧
       confettoPhi (sampleConfetto.frame + 5) < xj) :=
  ⟨by norm_num, by norm_num [sampleConfetto],
    claim9_spline_bracket_safety 6 [0, 1/7, 1/5, 1/3, 0] (fun _ => 1/2)
      [0, 1/10, 3/10, 1/2, 7/10, 4/5, 1] sampleConfetto 600 5
      createPoisson_sample_eval (by norm_num) rfl rfl
      (by norm_num [sampleConfetto])⟩
